import Mathlib

/-!
# Verification of the zustand store core (`src/index.ts`)

Shallow embedding of the vanilla store defined in `src/index.ts`:
the `create` factory, its closures `setState`, `getState`, `subscribe`
(with the per-subscription notification closure `listenerToAdd`),
`destroy`, and the `useStore` adapter's `getCurrentValue` accessor.

Modelling decisions:

* JavaScript values that can flow through the store are modelled by `Val`:
  `undefined`, `null`, booleans, numbers (as `Int`; the claims exercise no
  fractional or `NaN` arithmetic), strings, and plain objects.  An object is
  a finite ordered list of key/value fields (`Fields`), which is how JS
  enumerates own string-keyed properties.  JS objects never carry the same
  key twice; where a proof needs this we state it as the explicit
  `Fields.keys.Nodup` hypothesis.
* Object identity is abstracted structurally: the strict-equality guard
  `nextState !== state` is modelled as inequality of `Val`s.  A
  reference-identical candidate is in particular structurally equal, so
  every claim speaking of reference-identical values is covered.
* `Object.assign({}, state, nextState)` is modelled by `objectAssign`:
  copy the fields of `state` into a fresh object left to right, then copy
  the fields of `nextState` on top, an existing key keeping its position
  and taking the new value, a new key being appended.  Non-object sources
  contribute no fields (`undefined`/`null` are ignored by `Object.assign`;
  numbers and booleans have no own enumerable properties; string sources,
  which would contribute index properties, never occur in the claims).
* Functions that may throw (selectors and equality functions) are embedded
  as `Except Err`-valued functions; `try`/`catch` becomes a `match` on the
  `Except` result.
* A registered listener is a record (`Entry`) holding the subscription's
  selector, equality function and cached slice; invoking the
  user-supplied listener callback is modelled by emitting an `Event`
  (`invoked id newSlice` for `listener(newSlice)`, `signaledError id err`
  for `listener(null, error)`).  The JS `Set` of listeners, iterated in
  insertion order, is a `List Entry`.
-/

namespace Zustand

mutual

/-- A JavaScript value as it can appear as store state, a candidate next
state, or a selector slice. -/
inductive Val where
  | vundef : Val
  | vnull : Val
  | vbool : Bool → Val
  | vnum : Int → Val
  | vstr : String → Val
  | obj : Fields → Val
deriving DecidableEq

/-- The ordered own enumerable fields of a plain JS object. -/
inductive Fields where
  | nil : Fields
  | cons : String → Val → Fields → Fields
deriving DecidableEq

end

/-- The keys of an object's field list, in enumeration order. -/
def Fields.keys : Fields → List String
  | .nil => []
  | .cons k _ rest => k :: rest.keys

/-- Property lookup: the value at the first occurrence of key `k`. -/
def Fields.lookup : Fields → String → Option Val
  | .nil, _ => none
  | .cons k' v rest, k => if k' = k then some v else rest.lookup k

/-- Property write, as `Object.assign` performs it for one source key:
an existing key keeps its position and takes the new value, a new key is
appended at the end. -/
def Fields.setKey : Fields → String → Val → Fields
  | .nil, k, v => .cons k v .nil
  | .cons k' v' rest, k, v =>
    if k' = k then .cons k v rest else .cons k' v' (rest.setKey k v)

/-- List-style concatenation of field lists. -/
def Fields.append : Fields → Fields → Fields
  | .nil, gs => gs
  | .cons k v rest, gs => .cons k v (rest.append gs)

/-- Copy every field of `src`, left to right, onto `dst` — the per-source
loop of `Object.assign`. -/
def Fields.assign : Fields → Fields → Fields
  | d, .nil => d
  | d, .cons k v rest => (d.setKey k v).assign rest

/-- Membership: `MemKV k v fs` says the binding `k ↦ v` occurs in the
field list. -/
def Fields.MemKV : String → Val → Fields → Prop
  | _, _, .nil => False
  | k, v, .cons k' v' rest => (k = k' ∧ v = v') ∨ MemKV k v rest

/-- The own enumerable fields a value contributes as an `Object.assign`
source (and the fields read off the held state by the merge path). -/
def fieldsOf : Val → Fields
  | .obj fs => fs
  | _ => .nil

/-- Whether a value is a plain object. -/
def Val.isPlainObj : Val → Bool
  | .obj _ => true
  | _ => false

/-- The merge `Object.assign({}, a, b)`: a fresh object receiving `a`'s
fields, then `b`'s fields on top. -/
def objectAssign (a b : Val) : Val :=
  .obj ((Fields.nil.assign (fieldsOf a)).assign (fieldsOf b))

/-! ## The store (`create` and its closures) -/

/-- A thrown JS exception, abstracted to its message. -/
abbrev Err := String

/-- The first argument of `setState` (`PartialState<T>` in the source):
either a direct candidate value, or an updater function invoked with the
current state (`typeof partial === 'function'` distinguishes the two). -/
inductive SetArg where
  | val : Val → SetArg
  | fn : (Val → Val) → SetArg

/-- Implements `const nextState = typeof partial === 'function' ? partial(state) : partial`. -/
def resolve : SetArg → Val → Val
  | .val v, _ => v
  | .fn f, s => f s

/-- One registration made by `subscribe`: the state of the `listenerToAdd`
closure.  `id` identifies the user-supplied `listener` callback (each
`subscribe` call creates a fresh closure, so ids are distinct in any run);
`currentSlice` is the closure-local cached slice, initialised to
`selector(state)` at subscribe time and updated on each delivered change. -/
structure Entry where
  id : Nat
  selector : Val → Except Err Val
  equalityFn : Val → Val → Except Err Bool
  currentSlice : Val

/-- An observable invocation of a user-supplied listener callback:
`invoked id slice` stands for `listener(newSlice)`, and
`signaledError id err` for `listener(null, error)`. -/
inductive Event where
  | invoked : Nat → Val → Event
  | signaledError : Nat → Err → Event
deriving DecidableEq

/-- The body of the `listenerToAdd` closure, run when the store notifies
with (new) state `s`: inside `try`, recompute `selector(state)`, compare
with the cached slice via `equalityFn`, and if they differ update the
cache and call `listener(newSlice)`; if the selector or the equality
function throws, `catch` calls `listener(null, error)` and the cache is
left untouched.  Returns the updated closure state and the listener
invocation it performed, if any. -/
def listenerToAdd (s : Val) (e : Entry) : Entry × Option Event :=
  match e.selector s with
  | .error err => (e, some (Event.signaledError e.id err))
  | .ok newStateSlice =>
    match e.equalityFn e.currentSlice newStateSlice with
    | .error err => (e, some (Event.signaledError e.id err))
    | .ok eqHolds =>
      if eqHolds then (e, none)
      else ({ e with currentSlice := newStateSlice },
            some (Event.invoked e.id newStateSlice))

/-- Implements `listeners.forEach(listener => listener())` with new state `s`: the
registry after every closure has updated its cache.  Each closure touches
only its own cache, so the pass is a pointwise map. -/
def notifyEntries (s : Val) (l : List Entry) : List Entry :=
  l.map (fun e => (listenerToAdd s e).1)

/-- The listener invocations the same `forEach` pass performs, in
registration order. -/
def notifyEvents (s : Val) (l : List Entry) : List Event :=
  l.filterMap (fun e => (listenerToAdd s e).2)

/-- The mutable state owned by one `create` invocation: the `state`
variable and the `listeners` set (insertion-ordered, as JS `Set` is). -/
structure Store where
  state : Val
  listeners : List Entry

/-- Implements `setState(partial, replace)`: resolve the candidate; if it is
(strictly) equal to the current state do nothing; otherwise replace the
state (`replace` truthy) or shallow-merge via
`Object.assign({}, state, nextState)` (`replace` falsy), then run every
registered listener closure against the new state.  Returns the store
afterwards together with the listener invocations performed. -/
def setState (st : Store) (arg : SetArg) (replace : Bool) : Store × List Event :=
  let nextState := resolve arg st.state
  if nextState = st.state then (st, [])
  else
    let newState := if replace then nextState else objectAssign st.state nextState
    ({ state := newState, listeners := notifyEntries newState st.listeners },
      notifyEvents newState st.listeners)

/-- Implements `getState`: returns the held state by reference. -/
def getState (st : Store) : Val := st.state

/-- Default selector: the identity (the source defaults `selector` to
`getState`, which returns the whole state). -/
def wholeState : Val → Except Err Val := fun s => .ok s

/-- Default equality function, `Object.is`.  On the values `Val` models
(no `NaN`, no `-0`, object identity abstracted structurally) this is
structural equality; it never throws. -/
def objectIs : Val → Val → Except Err Bool := fun a b => .ok (decide (a = b))

/-- Implements `subscribe(listener, selector, equalityFn)` for the listener callback
identified by `id`: compute `selector(state)` — note this initial
computation happens outside any `try`, so a throwing selector propagates
out of `subscribe` and nothing is registered — then add a fresh
`listenerToAdd` closure to the registry. -/
def subscribe (st : Store) (id : Nat) (selector : Val → Except Err Val)
    (equalityFn : Val → Val → Except Err Bool) : Except Err Store :=
  match selector st.state with
  | .error err => .error err
  | .ok currentSlice =>
    .ok { st with
          listeners := st.listeners ++
            [{ id := id, selector := selector, equalityFn := equalityFn,
               currentSlice := currentSlice }] }

/-- The unsubscribe closure returned by `subscribe`:
`listeners.delete(listenerToAdd)` removes exactly that registration. -/
def unsubscribe (st : Store) (id : Nat) : Store :=
  { st with listeners := st.listeners.filter (fun e => e.id != id) }

/-- Implements `destroy`: `listeners.clear()` — empties the registry, leaves the
held state untouched. -/
def destroy (st : Store) : Store :=
  { st with listeners := [] }

/-- The `create` factory.  The initializer (`createState`) is modelled as
a function threading an instrumentation counter standing for its external
side effects, so that the number of times `create` runs it is observable.
`create` runs it once and makes its return value the store's first state,
with an empty listener registry, before returning the pair. -/
def create (createState : Nat → Val × Nat) (c : Nat) : Store × Nat :=
  let r := createState c
  ({ state := r.1, listeners := [] }, r.2)

/-! ## The `useStore` adapter's subscription record -/

/-- The closure state of one memoized subscription object inside
`useStore`: the cached slice and the `errored` flag. -/
structure SubRecord where
  currentSlice : Val
  errored : Bool
deriving DecidableEq

/-- The subscription object's `getCurrentValue` accessor: if `errored` is
not set, return the cached slice (no selector call); if it is set, clear
it and recompute the selector against the current store state `s` — if
the fresh slice compares equal to the cache return the cache, otherwise
return the fresh slice; a throw inside the recomputation is swallowed by
the surrounding `try`/`catch` and the cached slice is returned.  Returns
the produced value together with the record afterwards; note the record's
`currentSlice` is never written here. -/
def getCurrentValue (selector : Val → Except Err Val)
    (equalityFn : Val → Val → Except Err Bool) (s : Val) (r : SubRecord) :
    Val × SubRecord :=
  if r.errored then
    let r' : SubRecord := { r with errored := false }
    match selector s with
    | .error _ => (r.currentSlice, r')
    | .ok newStateSlice =>
      match equalityFn r.currentSlice newStateSlice with
      | .error _ => (r.currentSlice, r')
      | .ok eqHolds =>
        if eqHolds then (r.currentSlice, r') else (newStateSlice, r')
  else
    (r.currentSlice, r)

/-! ## Sequencing helpers for the claims -/

/-- Run a sequence of `setState` calls with `replace` falsy, keeping the
resulting store. -/
def runSetStates (st : Store) (ps : List SetArg) : Store :=
  ps.foldl (fun s p => (setState s p false).1) st

/-- The specification-side account of the same sequence: the shallow
merges of the resolved candidates applied left-to-right on top of the
initial state, ignoring the registry and the strict-equality guard. -/
def mergeRun : Val → List SetArg → Val
  | s, [] => s
  | s, p :: ps => mergeRun (objectAssign s (resolve p s)) ps

/-! ## Concrete values used to instantiate the theorems -/

/-- The object `{a: 1, b: 1}`. -/
def objAB : Val := Val.obj (.cons "a" (.vnum 1) (.cons "b" (.vnum 1) .nil))

/-- A fresh store holding `{a: 1, b: 1}` with no registrations. -/
def storeAB : Store := { state := objAB, listeners := [] }

/-- Two merging updates: `setState({a:2})` then `setState(s => ({c: s.a}))`. -/
def argsDemo : List SetArg :=
  [ SetArg.val (Val.obj (.cons "a" (.vnum 2) .nil)),
    SetArg.fn (fun s => Val.obj (.cons "c" (match (fieldsOf s).lookup "a" with
      | some v => v
      | none => Val.vundef) .nil)) ]

/-- A selector picking the field `a` of the state; throws on states
without one (never used on such states below). -/
def selectA : Val → Except Err Val := fun s =>
  match (fieldsOf s).lookup "a" with
  | some v => .ok v
  | none => .error "no field a"

/-- A selector that always throws. -/
def throwingSelector : Val → Except Err Val := fun _ => .error "boom"

/-- An equality function ignoring its second argument: deems the slices
unchanged exactly when the first (cached) one is the number `0`.  Legal
JS, but not an equivalence relation. -/
def firstIsZero : Val → Val → Except Err Bool :=
  fun a _ => .ok (decide (a = Val.vnum 0))

/-- A registration of the identity selector with default equality,
cache initialised from state `{a:1, b:1}`. -/
def entryWhole : Entry :=
  { id := 0, selector := wholeState, equalityFn := objectIs, currentSlice := objAB }

/-- A registration of `selectA` with default equality, cache `1`. -/
def entryA : Entry :=
  { id := 2, selector := selectA, equalityFn := objectIs, currentSlice := Val.vnum 1 }

/-- A registration whose selector always throws. -/
def entryThrowing : Entry :=
  { id := 1, selector := throwingSelector, equalityFn := objectIs,
    currentSlice := Val.vnum 0 }

/-! ## Elementary facts about field lists and `Object.assign` -/

theorem Fields.keys_setKey : ∀ (fs : Fields) (k : String) (v : Val),
    (fs.setKey k v).keys = if k ∈ fs.keys then fs.keys else fs.keys ++ [k]
  | .nil, k, v => by simp [Fields.setKey, Fields.keys]
  | .cons k' v' rest, k, v => by
    by_cases h : k' = k
    · subst h
      simp [Fields.setKey, Fields.keys]
    · have ih := Fields.keys_setKey rest k v
      simp [Fields.setKey, Fields.keys, h, ih, Ne.symm h]
      by_cases hm : k ∈ rest.keys <;> simp [hm]

theorem Fields.nodup_setKey (fs : Fields) (k : String) (v : Val)
    (h : fs.keys.Nodup) : (fs.setKey k v).keys.Nodup := by
  rw [Fields.keys_setKey]
  by_cases hm : k ∈ fs.keys
  · simpa [hm] using h
  · simp only [hm, if_false]
    exact List.Nodup.append h (List.nodup_singleton k) (by simpa using hm)

theorem Fields.nodup_assign : ∀ (src d : Fields),
    d.keys.Nodup → (d.assign src).keys.Nodup
  | .nil, _, h => h
  | .cons k v rest, d, h =>
    Fields.nodup_assign rest (d.setKey k v) (Fields.nodup_setKey d k v h)

theorem Fields.setKey_of_lookup : ∀ (fs : Fields) (k : String) (v : Val),
    fs.lookup k = some v → fs.setKey k v = fs
  | .nil, k, v, h => by simp [Fields.lookup] at h
  | .cons k' v' rest, k, v, h => by
    by_cases hk : k' = k
    · subst hk
      simp [Fields.lookup] at h
      simp [Fields.setKey, h]
    · simp [Fields.lookup, hk] at h
      simp [Fields.setKey, hk, Fields.setKey_of_lookup rest k v h]

theorem Fields.mem_keys_of_memKV {k : String} {v : Val} :
    ∀ {fs : Fields}, Fields.MemKV k v fs → k ∈ fs.keys
  | .nil, h => absurd h (by simp [Fields.MemKV])
  | .cons k' v' rest, h => by
    rcases h with ⟨hk, _⟩ | h
    · simp [Fields.keys, hk]
    · simp [Fields.keys, Fields.mem_keys_of_memKV h]

theorem Fields.lookup_of_memKV : ∀ {fs : Fields}, fs.keys.Nodup →
    ∀ {k : String} {v : Val}, Fields.MemKV k v fs → fs.lookup k = some v
  | .nil, _, _, _, h => absurd h (by simp [Fields.MemKV])
  | .cons k' v' rest, hnd, k, v, h => by
    simp only [Fields.keys, List.nodup_cons] at hnd
    rcases h with ⟨hk, hv⟩ | h
    · subst hk; subst hv
      simp [Fields.lookup]
    · have hk : ¬ k' = k := by
        intro hkk
        exact hnd.1 (hkk ▸ Fields.mem_keys_of_memKV h)
      simp [Fields.lookup, hk, Fields.lookup_of_memKV hnd.2 h]

theorem Fields.assign_of_lookup : ∀ (src d : Fields),
    (∀ k v, Fields.MemKV k v src → d.lookup k = some v) → d.assign src = d
  | .nil, d, _ => rfl
  | .cons k v rest, d, h => by
    have hd : d.setKey k v = d :=
      Fields.setKey_of_lookup d k v (h k v (Or.inl ⟨rfl, rfl⟩))
    show (d.setKey k v).assign rest = d
    rw [hd]
    exact Fields.assign_of_lookup rest d (fun k' v' hm => h k' v' (Or.inr hm))

theorem Fields.setKey_of_not_mem : ∀ (fs : Fields) (k : String) (v : Val),
    k ∉ fs.keys → fs.setKey k v = fs.append (.cons k v .nil)
  | .nil, _, _, _ => rfl
  | .cons k' v' rest, k, v, h => by
    simp only [Fields.keys, List.mem_cons] at h
    push_neg at h
    simp [Fields.setKey, Ne.symm h.1, Fields.append,
      Fields.setKey_of_not_mem rest k v h.2]

theorem Fields.append_nil : ∀ (a : Fields), a.append .nil = a
  | .nil => rfl
  | .cons k v rest => by simp [Fields.append, Fields.append_nil rest]

theorem Fields.append_assoc : ∀ (a b c : Fields),
    (a.append b).append c = a.append (b.append c)
  | .nil, _, _ => rfl
  | .cons k v rest, b, c => by simp [Fields.append, Fields.append_assoc rest b c]

theorem Fields.keys_append : ∀ (a b : Fields),
    (a.append b).keys = a.keys ++ b.keys
  | .nil, _ => rfl
  | .cons k v rest, b => by simp [Fields.append, Fields.keys, Fields.keys_append rest b]

theorem Fields.assign_of_disjoint : ∀ (src d : Fields),
    src.keys.Nodup → (∀ k ∈ src.keys, k ∉ d.keys) →
    d.assign src = d.append src
  | .nil, d, _, _ => (Fields.append_nil d).symm
  | .cons k v rest, d, hnd, hdisj => by
    simp only [Fields.keys, List.nodup_cons] at hnd
    have hk : k ∉ d.keys := hdisj k (by simp [Fields.keys])
    show (d.setKey k v).assign rest = d.append (.cons k v rest)
    rw [Fields.setKey_of_not_mem d k v hk]
    rw [Fields.assign_of_disjoint rest _ hnd.2 ?hdisj]
    · rw [Fields.append_assoc]
      rfl
    case hdisj =>
      intro k' hk'
      rw [Fields.keys_append]
      simp only [List.mem_append]
      push_neg
      constructor
      · exact hdisj k' (by simp [Fields.keys, hk'])
      · simp only [Fields.keys, List.mem_singleton]
        intro hkk
        exact hnd.1 (hkk ▸ hk')

theorem Fields.assign_nil_left (fs : Fields) (h : fs.keys.Nodup) :
    Fields.nil.assign fs = fs := by
  have := Fields.assign_of_disjoint fs Fields.nil h (by simp [Fields.keys])
  simpa [Fields.append] using this

theorem Fields.memKV_lookup_self {fs : Fields} (hnd : fs.keys.Nodup) :
    ∀ k v, Fields.MemKV k v fs → fs.lookup k = some v :=
  fun _ _ h => Fields.lookup_of_memKV hnd h

theorem Fields.assign_self (fs : Fields) (h : fs.keys.Nodup) :
    fs.assign fs = fs :=
  Fields.assign_of_lookup fs fs (Fields.memKV_lookup_self h)

theorem Fields.lookup_eq_none : ∀ (fs : Fields) (k : String),
    k ∉ fs.keys → fs.lookup k = none
  | .nil, _, _ => rfl
  | .cons k' v' rest, k, h => by
    simp only [Fields.keys, List.mem_cons] at h
    push_neg at h
    simp [Fields.lookup, Ne.symm h.1, Fields.lookup_eq_none rest k h.2]

theorem Fields.lookup_setKey_self : ∀ (d : Fields) (k : String) (v : Val),
    (d.setKey k v).lookup k = some v
  | .nil, k, v => by simp [Fields.setKey, Fields.lookup]
  | .cons k' v' rest, k, v => by
    by_cases h : k' = k
    · subst h
      simp [Fields.setKey, Fields.lookup]
    · simp [Fields.setKey, Fields.lookup, h, Fields.lookup_setKey_self rest k v]

theorem Fields.lookup_setKey_other : ∀ (d : Fields) (k k' : String) (v : Val),
    k' ≠ k → (d.setKey k v).lookup k' = d.lookup k'
  | .nil, k, k', v, h => by
    simp [Fields.setKey, Fields.lookup, Ne.symm h]
  | .cons k0 v0 rest, k, k', v, h => by
    by_cases h0 : k0 = k
    · subst h0
      simp [Fields.setKey, Fields.lookup, Ne.symm h]
    · by_cases h1 : k0 = k'
      · simp [Fields.setKey, Fields.lookup, h0, h1, h]
      · simp [Fields.setKey, Fields.lookup, h0, h1,
          Fields.lookup_setKey_other rest k k' v h]

theorem Fields.lookup_assign_of_not_mem : ∀ (src d : Fields) (k : String),
    k ∉ src.keys → (d.assign src).lookup k = d.lookup k
  | .nil, _, _, _ => rfl
  | .cons k0 v0 rest, d, k, h => by
    simp only [Fields.keys, List.mem_cons] at h
    push_neg at h
    show ((d.setKey k0 v0).assign rest).lookup k = d.lookup k
    rw [Fields.lookup_assign_of_not_mem rest _ k h.2]
    exact Fields.lookup_setKey_other d k0 k v0 h.1

theorem Fields.lookup_assign : ∀ (src : Fields), src.keys.Nodup →
    ∀ (d : Fields) (k : String),
    (d.assign src).lookup k
      = match src.lookup k with
        | some v => some v
        | none => d.lookup k
  | .nil, _, _, _ => rfl
  | .cons k0 v0 rest, hnd, d, k => by
    simp only [Fields.keys, List.nodup_cons] at hnd
    by_cases hk : k0 = k
    · subst hk
      show ((d.setKey k0 v0).assign rest).lookup k0 = _
      rw [Fields.lookup_assign_of_not_mem rest _ k0 hnd.1,
        Fields.lookup_setKey_self]
      simp [Fields.lookup]
    · show ((d.setKey k0 v0).assign rest).lookup k = _
      rw [Fields.lookup_assign rest hnd.2 _ k]
      cases hrest : rest.lookup k with
      | some v => simp [Fields.lookup, hk, hrest]
      | none =>
        simp [Fields.lookup, hk, hrest,
          Fields.lookup_setKey_other d k0 k v0 (fun hc => hk hc.symm)]

/-- The merge performed by the falsy-`replace` path is the claimed
shallow merge: a key's value in `Object.assign({}, a, b)` is `b`'s value
(taken wholesale — the entire `Val`, with no recursive descent) when `b`
has the key, and `a`'s value otherwise; the key set is the union. -/
theorem objectAssign_lookup (a b : Val)
    (ha : (fieldsOf a).keys.Nodup) (hb : (fieldsOf b).keys.Nodup)
    (k : String) :
    (fieldsOf (objectAssign a b)).lookup k
      = match (fieldsOf b).lookup k with
        | some v => some v
        | none => (fieldsOf a).lookup k := by
  show ((Fields.nil.assign (fieldsOf a)).assign (fieldsOf b)).lookup k = _
  rw [Fields.lookup_assign _ hb _ k, Fields.assign_nil_left _ ha]

/-- Merging a structurally identical object onto a well-formed object
state reproduces the state: `Object.assign({}, s, s')` with `s'` equal to
`s` field-for-field has exactly `s`'s fields. -/
theorem objectAssign_self (fs : Fields) (h : fs.keys.Nodup) :
    objectAssign (Val.obj fs) (Val.obj fs) = Val.obj fs := by
  show Val.obj ((Fields.nil.assign fs).assign fs) = Val.obj fs
  rw [Fields.assign_nil_left fs h, Fields.assign_self fs h]

/-- Merging an `undefined` candidate is a no-op on a well-formed object
state: `Object.assign` ignores `undefined` sources. -/
theorem objectAssign_vundef (fs : Fields) (h : fs.keys.Nodup) :
    objectAssign (Val.obj fs) Val.vundef = Val.obj fs := by
  show Val.obj ((Fields.nil.assign fs).assign Fields.nil) = Val.obj fs
  rw [Fields.assign_nil_left fs h]
  rfl

/-! ## General lemmas about the model -/

theorem Val.isPlainObj_iff (v : Val) :
    v.isPlainObj = true ↔ ∃ fs, v = Val.obj fs := by
  cases v <;> simp [Val.isPlainObj]

theorem objectAssign_isPlainObj (a b : Val) :
    (objectAssign a b).isPlainObj = true := rfl

theorem nodup_objectAssign (a b : Val) :
    (fieldsOf (objectAssign a b)).keys.Nodup := by
  show ((Fields.nil.assign (fieldsOf a)).assign (fieldsOf b)).keys.Nodup
  exact Fields.nodup_assign _ _
    (Fields.nodup_assign _ _ (by simp [Fields.keys]))

/-! ## The claims -/

/-- C1: for every store whose state is a plain object and every sequence
of `setState` calls with `replace` falsy whose candidates (direct or
returned by updater functions) are plain objects, the state held after
the sequence equals the shallow merge of all the resolved candidates
applied left-to-right on top of the initial state — `mergeRun`, i.e.
iterated `Object.assign` with the later candidate's value winning on an
overlapping key and nested values replaced wholesale. -/
theorem setState_shallow_merge_fold (ps : List SetArg) (st : Store)
    (h0 : st.state.isPlainObj = true)
    (h1 : (fieldsOf st.state).keys.Nodup)
    (hp : ∀ p ∈ ps, ∀ s : Val, s.isPlainObj = true →
      (resolve p s).isPlainObj = true) :
    (runSetStates st ps).state = mergeRun st.state ps := by
  induction ps generalizing st with
  | nil => rfl
  | cons p ps ih =>
    have hrun : runSetStates st (p :: ps) = runSetStates (setState st p false).1 ps := rfl
    have hmerge : mergeRun st.state (p :: ps)
        = mergeRun (objectAssign st.state (resolve p st.state)) ps := rfl
    obtain ⟨fs, hfs⟩ := (Val.isPlainObj_iff st.state).mp h0
    by_cases hg : resolve p st.state = st.state
    · have hstep : (setState st p false).1 = st := by
        simp [setState, hg]
      have hoa : objectAssign st.state (resolve p st.state) = st.state := by
        rw [hg, hfs]
        exact objectAssign_self fs (by rw [hfs] at h1; exact h1)
      rw [hrun, hmerge, hstep, hoa]
      exact ih st h0 h1 (fun q hq => hp q (List.mem_cons_of_mem p hq))
    · have hstep : (setState st p false).1.state
          = objectAssign st.state (resolve p st.state) := by
        simp [setState, hg]
      rw [hrun, hmerge]
      have h0' : (setState st p false).1.state.isPlainObj = true := by
        rw [hstep]; exact objectAssign_isPlainObj _ _
      have h1' : (fieldsOf (setState st p false).1.state).keys.Nodup := by
        rw [hstep]; exact nodup_objectAssign _ _
      have := ih (setState st p false).1 h0' h1'
        (fun q hq => hp q (List.mem_cons_of_mem p hq))
      rw [this, hstep]

theorem setState_shallow_merge_fold_witness :
    (runSetStates storeAB argsDemo).state = mergeRun storeAB.state argsDemo :=
  setState_shallow_merge_fold argsDemo storeAB rfl (by decide) (by
    intro p hp s _
    rcases List.mem_cons.mp hp with rfl | hp2
    · rfl
    · rcases List.mem_cons.mp hp2 with rfl | hp3
      · rfl
      · exact absurd hp3 (List.not_mem_nil p))

/-- Inversion for a delivered change: `listenerToAdd` performs
`listener(newSlice)` exactly when the selector succeeded and the equality
function returned `false`. -/
theorem listenerToAdd_invoked_inv (s : Val) (e : Entry) (i : Nat) (v : Val)
    (h : (listenerToAdd s e).2 = some (Event.invoked i v)) :
    i = e.id ∧ e.selector s = .ok v
      ∧ e.equalityFn e.currentSlice v = .ok false := by
  cases hs : e.selector s with
  | error err => simp [listenerToAdd, hs] at h
  | ok ns =>
    cases he : e.equalityFn e.currentSlice ns with
    | error err => simp [listenerToAdd, hs, he] at h
    | ok b =>
      cases b with
      | true => simp [listenerToAdd, hs, he] at h
      | false =>
        simp [listenerToAdd, hs, he] at h
        obtain ⟨hi, hv⟩ := h
        subst hi; subst hv
        exact ⟨rfl, rfl, he⟩

/-- The other direction: equality `false` on a successful recomputation
makes `listenerToAdd` perform `listener(newSlice)`. -/
theorem listenerToAdd_invoked_of_ne (s : Val) (e : Entry) (ns : Val)
    (hsel : e.selector s = .ok ns)
    (heq : e.equalityFn e.currentSlice ns = .ok false) :
    (listenerToAdd s e).2 = some (Event.invoked e.id ns) := by
  simp [listenerToAdd, hsel, heq]

/-- Equality `true` on a successful recomputation suppresses the
listener invocation. -/
theorem listenerToAdd_skipped_of_eq (s : Val) (e : Entry) (ns : Val)
    (hsel : e.selector s = .ok ns)
    (heq : e.equalityFn e.currentSlice ns = .ok true) :
    (listenerToAdd s e).2 = none := by
  simp [listenerToAdd, hsel, heq]

/-- C2 (amended): after a `setState` whose candidate differs from the
current state, a registered listener (with distinct ids in the registry,
as fresh `subscribe` closures always are) is invoked with the new slice
`ns = selector(newState)` if and only if the equality function applied to
the subscription's *cached* slice and `ns` returns `false`.  The cached
slice is `selector(oldState)` whenever the cache is current (in
particular right after subscribing, or when every preceding notification
was delivered); the claim's phrasing `e(s(oldState), s(newState))` is
exact in that case but not for arbitrary equality functions — see
`setState_notifies_iff_counterexample`. -/
theorem setState_notifies_iff (st : Store) (arg : SetArg) (replace : Bool)
    (e : Entry) (ns : Val) (b : Bool)
    (hchange : resolve arg st.state ≠ st.state)
    (hids : (st.listeners.map Entry.id).Nodup)
    (hmem : e ∈ st.listeners)
    (hsel : e.selector (setState st arg replace).1.state = .ok ns)
    (heq : e.equalityFn e.currentSlice ns = .ok b) :
    (Event.invoked e.id ns ∈ (setState st arg replace).2) ↔ b = false := by
  have hE : (setState st arg replace).2
      = notifyEvents (setState st arg replace).1.state st.listeners := by
    simp [setState, hchange]
  rw [hE]
  set S := (setState st arg replace).1.state with hS
  constructor
  · intro hin
    obtain ⟨e', hmem', hev⟩ := List.mem_filterMap.mp hin
    obtain ⟨hid, hsel', heq'⟩ := listenerToAdd_invoked_inv S e' e.id ns hev
    have : e' = e := List.inj_on_of_nodup_map hids hmem' hmem hid.symm
    subst this
    rw [heq'] at heq
    exact (Except.ok.injEq _ _).mp heq.symm
  · intro hb
    subst hb
    exact List.mem_filterMap.mpr ⟨e, hmem, listenerToAdd_invoked_of_ne S e ns hsel heq⟩

theorem setState_notifies_iff_witness :
    Event.invoked 0 (Val.vnum 1)
      ∈ (setState { state := Val.vnum 0,
                    listeners := [{ id := 0, selector := wholeState,
                                    equalityFn := objectIs,
                                    currentSlice := Val.vnum 0 }] }
          (SetArg.val (Val.vnum 1)) true).2 :=
  (setState_notifies_iff
    { state := Val.vnum 0,
      listeners := [{ id := 0, selector := wholeState,
                      equalityFn := objectIs, currentSlice := Val.vnum 0 }] }
    (SetArg.val (Val.vnum 1)) true
    { id := 0, selector := wholeState, equalityFn := objectIs,
      currentSlice := Val.vnum 0 }
    (Val.vnum 1) false (by decide) (by simp) (by simp) rfl rfl).mpr rfl

/-- C2, as stated, is false for an equality function that is not an
equivalence relation.  With the identity selector and the legal equality
function `firstIsZero` (true exactly when its first argument is `0`):
subscribe at state `0` (cache `0`), `setState(1, true)` — comparison
`firstIsZero(0, 1)` is true, so no invocation and the cache stays `0` —
then `setState(2, true)`: the state changes from `1` to `2` and
`e(s(oldState), s(newState)) = firstIsZero(1, 2) = ok false`, so the
claim requires an invocation, yet the code compares the cached slice,
`firstIsZero(0, 2) = ok true`, and invokes nothing: the second call's
event list is empty. -/
theorem setState_notifies_iff_counterexample :
    (Zustand.subscribe { state := Val.vnum 0, listeners := [] } 0
        wholeState firstIsZero).map (fun st1 =>
      let r1 := setState st1 (SetArg.val (Val.vnum 1)) true
      let r2 := setState r1.1 (SetArg.val (Val.vnum 2)) true
      (r1.1.state, r2.1.state, r2.2))
      = .ok (Val.vnum 1, Val.vnum 2, ([] : List Event))
    ∧ firstIsZero (Val.vnum 1) (Val.vnum 2) = .ok false := by
  constructor
  · rfl
  · rfl

/-- A recomputation that throws — in the selector, or in the equality
function after a successful selector — makes `listenerToAdd` call
`listener(null, error)` and leave the closure state (the cached slice)
untouched. -/
theorem listenerToAdd_of_throw (s : Val) (e : Entry) (err : Err)
    (h : e.selector s = .error err ∨
      ∃ ns, e.selector s = .ok ns ∧ e.equalityFn e.currentSlice ns = .error err) :
    listenerToAdd s e = (e, some (Event.signaledError e.id err)) := by
  rcases h with h | ⟨ns, hsel, heq⟩
  · simp [listenerToAdd, h]
  · simp [listenerToAdd, hsel, heq]

/-- C3: during one notification pass over the registry
`before ++ e :: after`, if the registration `e`'s selector or equality
function throws, that one listener is invoked as `listener(null, error)`
(the `signaledError` event in place), the exception does not escape the
loop — every registration in `before` and in `after` still produces
exactly its normal events and cache updates — and `e`'s cached slice is
left unchanged by the failed recomputation. -/
theorem throwing_listener_isolated (s : Val) (before after : List Entry)
    (e : Entry) (err : Err)
    (h : e.selector s = .error err ∨
      ∃ ns, e.selector s = .ok ns ∧ e.equalityFn e.currentSlice ns = .error err) :
    notifyEvents s (before ++ e :: after)
      = notifyEvents s before
        ++ Event.signaledError e.id err :: notifyEvents s after
    ∧ notifyEntries s (before ++ e :: after)
      = notifyEntries s before ++ e :: notifyEntries s after := by
  have he := listenerToAdd_of_throw s e err h
  constructor
  · simp [notifyEvents, List.filterMap_append, he]
  · simp [notifyEntries, List.map_append, he]

theorem throwing_listener_isolated_witness :
    notifyEvents objAB ([entryWhole] ++ entryThrowing :: [entryA])
      = notifyEvents objAB [entryWhole]
        ++ Event.signaledError 1 "boom" :: notifyEvents objAB [entryA]
    ∧ notifyEntries objAB ([entryWhole] ++ entryThrowing :: [entryA])
      = notifyEntries objAB [entryWhole]
        ++ entryThrowing :: notifyEntries objAB [entryA] :=
  throwing_listener_isolated objAB [entryWhole] [entryA] entryThrowing "boom"
    (Or.inl rfl)

/-- C4: `setState(x, true)` with a candidate different from the current
state replaces the state wholesale: `getState` afterwards returns exactly
`x`, and when `x` is an object, any key absent from `x` — in particular
any key the old state had and `x` does not — is absent from the new
state. -/
theorem setState_replace_wholesale (st : Store) (x : Val) (h : x ≠ st.state) :
    getState (setState st (SetArg.val x) true).1 = x
    ∧ ∀ fs k, x = Val.obj fs → k ∉ fs.keys →
        (fieldsOf (setState st (SetArg.val x) true).1.state).lookup k = none := by
  have hst : (setState st (SetArg.val x) true).1.state = x := by
    simp [setState, resolve, h]
  refine ⟨hst, ?_⟩
  intro fs k hx hk
  rw [hst, hx]
  exact Fields.lookup_eq_none fs k hk

theorem setState_replace_wholesale_witness :
    getState (setState storeAB (SetArg.val (Val.obj (.cons "c" (.vnum 2) .nil))) true).1
      = Val.obj (.cons "c" (.vnum 2) .nil)
    ∧ (fieldsOf (setState storeAB
        (SetArg.val (Val.obj (.cons "c" (.vnum 2) .nil))) true).1.state).lookup "a"
      = none :=
  ⟨(setState_replace_wholesale storeAB (Val.obj (.cons "c" (.vnum 2) .nil))
      (by decide)).1,
   (setState_replace_wholesale storeAB (Val.obj (.cons "c" (.vnum 2) .nil))
      (by decide)).2 (.cons "c" (.vnum 2) .nil) "a" rfl (by decide)⟩

/-- C5: a `setState` whose resolved candidate — a direct value or the
return of an updater function — is (reference-)identical to the current
state takes the guard's fast path: the store is unchanged (same state,
same registry) and no listener is invoked, whatever `replace` is. -/
theorem setState_identical_noop (st : Store) (arg : SetArg) (replace : Bool)
    (h : resolve arg st.state = st.state) :
    setState st arg replace = (st, []) := by
  simp [setState, h]

theorem setState_identical_noop_witness :
    setState storeAB (SetArg.fn (fun s => s)) false = (storeAB, []) :=
  setState_identical_noop storeAB (SetArg.fn (fun s => s)) false rfl

/-- C6: `destroy` empties the registry and leaves the held state
untouched; it is idempotent; after `destroy`, any `setState` invokes no
listener while still updating the state as usual (here with a candidate
differing from the current state); and a fresh `subscribe` after
`destroy` registers normally (hypothesis `hsl` is its subscribe-time
slice) and its listener observes a subsequent change: when that change's
recomputed slice `ns` compares unequal (`heq2`) to the cached slice `sl`,
the notification pass invokes exactly the new listener with `ns`. -/
theorem destroy_behavior (st : Store) (arg arg2 : SetArg)
    (replace replace2 : Bool) (id : Nat)
    (sel : Val → Except Err Val) (eqf : Val → Val → Except Err Bool)
    (sl ns : Val)
    (hsl : sel st.state = .ok sl)
    (hch1 : resolve arg st.state ≠ st.state)
    (hch2 : resolve arg2 st.state ≠ st.state)
    (hsel2 : sel (setState
        { state := st.state,
          listeners := [{ id := id, selector := sel, equalityFn := eqf,
                          currentSlice := sl }] } arg2 replace2).1.state = .ok ns)
    (heq2 : eqf sl ns = .ok false) :
    (destroy st).state = st.state
    ∧ (destroy st).listeners = []
    ∧ destroy (destroy st) = destroy st
    ∧ (setState (destroy st) arg replace).2 = []
    ∧ (setState (destroy st) arg replace).1.state
        = (if replace then resolve arg st.state
           else objectAssign st.state (resolve arg st.state))
    ∧ subscribe (destroy st) id sel eqf
        = .ok { state := st.state,
                listeners := [{ id := id, selector := sel, equalityFn := eqf,
                                currentSlice := sl }] }
    ∧ (setState
        { state := st.state,
          listeners := [{ id := id, selector := sel, equalityFn := eqf,
                          currentSlice := sl }] } arg2 replace2).2
        = [Event.invoked id ns] := by
  refine ⟨rfl, rfl, rfl, ?_, ?_, ?_, ?_⟩
  · by_cases hg : resolve arg st.state = st.state
    · simp [setState, destroy, hg]
    · simp [setState, destroy, hg, notifyEvents]
  · simp [setState, destroy, hch1]
  · simp [subscribe, destroy, hsl]
  · have h2 := hsel2
    simp [setState, hch2] at h2
    simp [setState, hch2, notifyEvents, listenerToAdd, h2, heq2]

theorem destroy_behavior_witness :
    (destroy storeAB).state = storeAB.state
    ∧ (destroy storeAB).listeners = []
    ∧ destroy (destroy storeAB) = destroy storeAB
    ∧ (setState (destroy storeAB)
        (SetArg.val (Val.obj (.cons "a" (.vnum 2) .nil))) false).2 = []
    ∧ (setState (destroy storeAB)
        (SetArg.val (Val.obj (.cons "a" (.vnum 2) .nil))) false).1.state
        = objectAssign storeAB.state
            (resolve (SetArg.val (Val.obj (.cons "a" (.vnum 2) .nil))) storeAB.state)
    ∧ subscribe (destroy storeAB) 4 wholeState objectIs
        = .ok { state := storeAB.state,
                listeners := [{ id := 4, selector := wholeState,
                                equalityFn := objectIs, currentSlice := objAB }] }
    ∧ (setState
        { state := storeAB.state,
          listeners := [{ id := 4, selector := wholeState,
                          equalityFn := objectIs, currentSlice := objAB }] }
        (SetArg.val (Val.obj (.cons "a" (.vnum 3) .nil))) false).2
        = [Event.invoked 4
            (Val.obj (.cons "a" (.vnum 3) (.cons "b" (.vnum 1) .nil)))] :=
  destroy_behavior storeAB
    (SetArg.val (Val.obj (.cons "a" (.vnum 2) .nil)))
    (SetArg.val (Val.obj (.cons "a" (.vnum 3) .nil)))
    false false 4 wholeState objectIs objAB
    (Val.obj (.cons "a" (.vnum 3) (.cons "b" (.vnum 1) .nil)))
    rfl (by decide) (by decide) rfl rfl

/-- C7: the adapter's accessor.  When `errored` is unset,
`getCurrentValue` returns the cached slice and an unchanged record
whatever selector, equality function and store state it is given (so in
particular without invoking the selector).  When `errored` is set, it
clears the flag and recomputes: if the equality function deems the fresh
slice `ns` equal to the cache it returns the cached value, otherwise the
fresh one — and in both outcomes the record it returns still carries the
old cached slice (`{r with errored := false}`): the accessor never
overwrites the cache. -/
theorem getCurrentValue_spec (sel : Val → Except Err Val)
    (eqf : Val → Val → Except Err Bool) (s : Val) (r : SubRecord)
    (ns : Val) (b : Bool)
    (hsel : sel s = .ok ns) (heq : eqf r.currentSlice ns = .ok b) :
    (r.errored = false → ∀ (sel2 : Val → Except Err Val)
        (eqf2 : Val → Val → Except Err Bool) (s2 : Val),
        getCurrentValue sel2 eqf2 s2 r = (r.currentSlice, r))
    ∧ (r.errored = true →
        getCurrentValue sel eqf s r
          = ((if b then r.currentSlice else ns), { r with errored := false })) := by
  constructor
  · intro h sel2 eqf2 s2
    simp [getCurrentValue, h]
  · intro h
    simp only [getCurrentValue, h, if_true, hsel, heq]
    cases b <;> simp

theorem getCurrentValue_spec_witness :
    getCurrentValue throwingSelector objectIs (Val.vnum 9)
        { currentSlice := Val.vnum 5, errored := false }
      = (Val.vnum 5, { currentSlice := Val.vnum 5, errored := false })
    ∧ getCurrentValue wholeState objectIs (Val.vnum 6)
        { currentSlice := Val.vnum 5, errored := true }
      = (Val.vnum 6, { currentSlice := Val.vnum 5, errored := false }) :=
  ⟨(getCurrentValue_spec wholeState objectIs (Val.vnum 9)
      { currentSlice := Val.vnum 5, errored := false } (Val.vnum 9) false
      rfl rfl).1 rfl throwingSelector objectIs (Val.vnum 9),
   (getCurrentValue_spec wholeState objectIs (Val.vnum 6)
      { currentSlice := Val.vnum 5, errored := true } (Val.vnum 6) false
      rfl rfl).2 rfl⟩

/-- C8: the `create` factory runs the initializer exactly once before
returning — starting it with instrumentation counter `c`, the returned
counter is the one a single invocation `f c` produces — and the store it
returns holds the initializer's return value as its first state
(`getState` reads it back) with an empty registry. -/
theorem create_runs_initializer_once (f : Nat → Val × Nat) (c : Nat) :
    create f c = ({ state := (f c).1, listeners := [] }, (f c).2)
    ∧ getState (create f c).1 = (f c).1 :=
  ⟨rfl, rfl⟩

/-- C9 counterexample: with `replace` falsy (the call's default), a
void-returning updater does *not* make the held state `undefined`:
`Object.assign({}, state, undefined)` ignores the `undefined` source, so
from `{a:1, b:1}` the held state is still `{a:1, b:1}` after
`setState(() => undefined)`. -/
theorem setState_void_updater_counterexample :
    (setState storeAB (SetArg.fn (fun _ => Val.vundef)) false).1.state = objAB
    ∧ objAB ≠ Val.vundef :=
  ⟨rfl, by decide⟩

/-- C9 (amended): a void-returning updater (resolving to `undefined` on
the current state) makes the held state `undefined` only when `replace`
is truthy; with `replace` falsy the merge path's `Object.assign` ignores
the `undefined` candidate and the held state keeps its previous fields
(though listeners are still notified, since `undefined !== state`). -/
theorem setState_void_updater (st : Store) (f : Val → Val)
    (hf : f st.state = Val.vundef)
    (hobj : st.state.isPlainObj = true)
    (hnd : (fieldsOf st.state).keys.Nodup) :
    (setState st (SetArg.fn f) true).1.state = Val.vundef
    ∧ (setState st (SetArg.fn f) false).1.state = st.state := by
  obtain ⟨fs, hfs⟩ := (Val.isPlainObj_iff st.state).mp hobj
  have hvu : ¬ Val.vundef = st.state := by
    rw [hfs]; simp
  constructor
  · simp [setState, resolve, hf, hvu]
  · simp [setState, resolve, hf, hvu]
    rw [hfs]
    exact objectAssign_vundef fs (by rw [hfs] at hnd; exact hnd)

theorem setState_void_updater_witness :
    (setState storeAB (SetArg.fn (fun _ => Val.vundef)) true).1.state = Val.vundef
    ∧ (setState storeAB (SetArg.fn (fun _ => Val.vundef)) false).1.state
        = storeAB.state :=
  setState_void_updater storeAB (fun _ => Val.vundef) rfl rfl (by decide)

/-- C10: `subscribe` computes `selector(state)` eagerly at registration
time, outside the per-notification `try`/`catch`: a selector throwing on
the current state makes `subscribe` itself propagate the exception — the
result is the error, not a `listener(null, error)` signal, and no store
with an extended registry (hence no unsubscribe closure) is produced. -/
theorem subscribe_propagates_throw (st : Store) (id : Nat)
    (sel : Val → Except Err Val) (eqf : Val → Val → Except Err Bool) (err : Err)
    (h : sel st.state = .error err) :
    subscribe st id sel eqf = .error err := by
  simp [subscribe, h]

theorem subscribe_propagates_throw_witness :
    subscribe storeAB 3 throwingSelector objectIs = .error "boom" :=
  subscribe_propagates_throw storeAB 3 throwingSelector objectIs "boom" rfl

end Zustand


